import Mathlib

/-!
Verification development for the enact core: the resource model, the
content-addressed store (commit / checkout / modify / reference calls) and
the journaled invocation engine (invoke, rewind, replay, input requests,
exception overrides, and the cooperative-async completion rule).

The repository ships the core as a library whose sources are not part of
the example tree; the definitions below are therefore modelled from the
specification (each such definition says so in its doc comment) and checked
against the concrete behaviours exhibited by the example notebooks.
-/

set_option maxRecDepth 10000

/-! ## Field values and resources -/

/-- Modelled from the spec: the closed universe of values that may appear
inside a resource (§3): integer, boolean, UTF-8 string, byte string, the
absent value, a reference to another resource, an ordered sequence, a
string-keyed mapping, and an embedded resource instance.  Floating-point
values are omitted from the model (no claim depends on float semantics). -/
inductive FieldValue : Type where
  | int (i : Int)
  | bool (b : Bool)
  | str (s : String)
  | bytes (bs : List Nat)
  | absent
  | ref (typeName : String) (digest : String)
  | list (vs : List FieldValue)
  | map (kvs : List (String × FieldValue))
  | res (name : String) (fields : List (String × FieldValue))

/-- Modelled from the spec: a resource is a named, registered type together
with an ordered list of (field_name, field_value) pairs (§3).  Field order
is part of the contract. -/
structure Resource where
  name : String
  fields : List (String × FieldValue)

/-! ## Canonical byte encoding and digests

Modelled from the spec: the canonical serialization is any fixed
deterministic encoding of the packed resource (§4.2); the reference
implementation hashes the canonical bytes with SHA-256 and hex-encodes the
digest as 64 lowercase characters (§3).  The model uses an executable
tagged encoding into a list of naturals and a 256-bit polynomial hash as a
stand-in for SHA-256; the digest is hex-encoded to exactly 64 lowercase
characters as in the source. -/

/-- Canonical encoding of a string: length-prefixed character codes. -/
def encodeStr (s : String) : List Nat :=
  s.toList.length :: s.toList.map Char.toNat

/-- Canonical encoding of an integer: sign tag and magnitude. -/
def encodeInt (i : Int) : List Nat :=
  [(if i < 0 then 1 else 0), i.natAbs]

mutual

/-- Canonical tagged encoding of a field value. -/
def encodeFV : FieldValue → List Nat
  | .int i => 0 :: encodeInt i
  | .bool b => [1, if b then 1 else 0]
  | .str s => 2 :: encodeStr s
  | .bytes bs => 3 :: bs.length :: bs
  | .absent => [4]
  | .ref t d => 5 :: encodeStr t ++ encodeStr d
  | .list vs => 6 :: encodeFVList vs
  | .map kvs => 7 :: encodeFVPairs kvs
  | .res nm fs => 8 :: (encodeStr nm ++ encodeFVPairs fs)

/-- Canonical encoding of a sequence of field values. -/
def encodeFVList : List FieldValue → List Nat
  | [] => [90]
  | v :: vs => 91 :: (encodeFV v ++ encodeFVList vs)

/-- Canonical encoding of a list of (key, value) pairs. -/
def encodeFVPairs : List (String × FieldValue) → List Nat
  | [] => [92]
  | (k, v) :: ps => 93 :: (encodeStr k ++ encodeFV v ++ encodeFVPairs ps)

end

/-- Canonical encoding of a whole resource: type name then ordered fields. -/
def Resource.encode (r : Resource) : List Nat :=
  encodeStr r.name ++ encodeFVPairs r.fields

/-- A 256-bit polynomial hashing step. -/
def hashStep (a b : Nat) : Nat :=
  (a * 1099511628211 + b + 1) % 2 ^ 256

/-- Hash of canonical bytes: fold of the hashing step, reduced below 2^256. -/
def hashBytes (l : List Nat) : Nat :=
  l.foldl hashStep (14695981039346656037 % 2 ^ 256)

/-- Lowercase hexadecimal digit for a value below 16. -/
def hexDigitChar (n : Nat) : Char :=
  if n < 10 then Char.ofNat (48 + n) else Char.ofNat (87 + n)

/-- Fixed-width 64-character lowercase hex encoding of a 256-bit number. -/
def hex64 (n : Nat) : String :=
  String.mk ((List.range 64).map fun i => hexDigitChar (n / 16 ^ (63 - i) % 16))

/-- Digest of canonical bytes: 64 lowercase hex characters. -/
def digestBytes (l : List Nat) : String :=
  hex64 (hashBytes l)

/-- Digest of a resource. -/
def Resource.digest (r : Resource) : String :=
  digestBytes r.encode

/-- Modelled from the spec: a reference is a pair of a reference type id and
the target digest (§3); equality is componentwise. -/
structure Ref where
  typeName : String
  digest : String
deriving DecidableEq, Repr

/-- The reference a resource commits to. -/
def Resource.toRef (r : Resource) : Ref :=
  ⟨r.name, r.digest⟩

/-! ## Store: commit, checkout, modify, reference calls -/

/-- Modelled from the spec: a store is an associative set of packed
resources keyed by their digest (§3); the model keys the (unpacked)
resource by its digest string. -/
def Store : Type := List (String × Resource)

/-- Lookup of a digest in a store. -/
def Store.lookupDigest (s : Store) (d : String) : Option Resource :=
  match s with
  | [] => none
  | (d', r) :: rest => if d' = d then some r else Store.lookupDigest rest d

/-- Modelled from the spec: commit packs and hashes the resource, performs
an idempotent backend commit, and returns the reference (§4.3); committing
an already-present digest is a no-op. -/
def Store.commit (s : Store) (r : Resource) : Ref × Store :=
  let d := r.digest
  match s.lookupDigest d with
  | some _ => (r.toRef, s)
  | none => (r.toRef, (d, r) :: s)

/-- Modelled from the spec: checkout retrieves the resource behind a
reference from the store, or fails if the digest is absent (§4.3). -/
def Store.checkout (s : Store) (ref : Ref) : Option Resource :=
  s.lookupDigest ref.digest

/-- Modelled from the spec: calling a reference object directly is an
abbreviation for checking it out (example notebook: `ref()` may be used
for `ref.checkout()`).  The model routes the call through the same store
lookup on the reference's digest. -/
def Ref.callRef (ref : Ref) (s : Store) : Option Resource :=
  s.lookupDigest ref.digest

/-- Checkout as a method on the reference, for the reference-call claim. -/
def Ref.checkoutRef (ref : Ref) (s : Store) : Option Resource :=
  Store.checkout s ref

/-! ### Basic store lemmas -/

theorem lookupDigest_commit_isSome (s : Store) (r : Resource) :
    (((s.commit r).2).lookupDigest r.digest).isSome = true := by
  unfold Store.commit
  cases h : s.lookupDigest r.digest with
  | some v => simp [h]
  | none => simp [Store.lookupDigest, h]

theorem commit_preserves (s : Store) (r : Resource) (d : String) (v : Resource)
    (h : s.lookupDigest d = some v) :
    ((s.commit r).2).lookupDigest d = some v := by
  unfold Store.commit
  cases h' : s.lookupDigest r.digest with
  | some w => simpa [h'] using h
  | none =>
    simp only [h']
    unfold Store.lookupDigest
    by_cases hd : r.digest = d
    · rw [hd] at h'; rw [h'] at h; exact absurd h (by simp)
    · simp [hd, h]

theorem commit_checkout_fresh (s : Store) (r : Resource)
    (h : s.lookupDigest r.digest = none) :
    ((s.commit r).2).checkout (s.commit r).1 = some r := by
  unfold Store.checkout Store.commit Resource.toRef
  simp [h, Store.lookupDigest]

/-! ### Digest format: 64 lowercase hexadecimal characters -/

/-- The sixteen lowercase hexadecimal digits: the decimal digit characters
(codes 48 to 57) followed by the letters a to f (codes 97 to 102). -/
def lowercaseHexDigits : List Char :=
  (List.range 10).map (fun i => Char.ofNat (48 + i)) ++
    (List.range 6).map (fun i => Char.ofNat (97 + i))

theorem hexDigitChar_mem : ∀ k, k < 16 → hexDigitChar k ∈ lowercaseHexDigits := by
  decide

theorem hex64_length (n : Nat) : (hex64 n).length = 64 := by
  simp [hex64, String.length]

theorem hex64_chars (n : Nat) :
    ∀ c ∈ (hex64 n).toList, c ∈ lowercaseHexDigits := by
  intro c hc
  simp only [hex64, String.toList, String.mk, List.mem_map] at hc
  obtain ⟨i, _, rfl⟩ := hc
  exact hexDigitChar_mem _ (Nat.mod_lt _ (by norm_num))

/-! ### Reference mutation (`modify`) -/

/-- Errors surfaced by the `modify` scope. -/
inductive ModError : Type where
  | notFound
  | userErr (e : FieldValue)

/-- Modelled from the spec: `modify(ref)` checks the reference's current
digest out of the store, yields a mutable copy to the caller (modelled as
the fallible mutation function `f`), and on error-free exit re-commits the
mutated copy and rebinds only the given reference identity to the new
digest; on error the error propagates and nothing is committed or rebound
(§4.3).  Reference identities are modelled as indices into an environment
of reference values, reflecting that a `ref` object is a pointer with
identity in addition to its digest. -/
def modifyRef (s : Store) (env : Nat → Ref) (rid : Nat)
    (f : Resource → Except FieldValue Resource) :
    Except ModError (Store × (Nat → Ref)) :=
  match s.checkout (env rid) with
  | none => .error .notFound
  | some r =>
    match f r with
    | .error e => .error (.userErr e)
    | .ok r' =>
      let c := s.commit r'
      .ok (c.2, fun i => if i = rid then c.1 else env i)

theorem commit_fst (s : Store) (r : Resource) : (s.commit r).1 = r.toRef := by
  unfold Store.commit
  cases h : s.lookupDigest r.digest <;> simp [h]

theorem commit_noop_of_present (s : Store) (r : Resource)
    (h : (s.lookupDigest r.digest).isSome = true) : (s.commit r).2 = s := by
  unfold Store.commit
  cases h' : s.lookupDigest r.digest with
  | some v => simp [h']
  | none => rw [h'] at h; simp at h

/-! ## Claim C1: commit determinism, idempotence and digest format -/

/-- C1: committing an equivalent resource again returns an equal reference
(sharing one digest, encoded as 64 lowercase hex characters), and
re-committing an already-present resource is a no-op returning the
existing reference. -/
theorem commit_deterministic_idempotent (s : Store) (r₁ r₂ : Resource)
    (hname : r₁.name = r₂.name) (henc : r₁.encode = r₂.encode) :
    ((s.commit r₁).2.commit r₂).1 = (s.commit r₁).1 ∧
    ((s.commit r₁).2.commit r₂).2 = (s.commit r₁).2 ∧
    ((s.commit r₁).1).digest.length = 64 ∧
    ∀ c ∈ ((s.commit r₁).1).digest.toList, c ∈ lowercaseHexDigits := by
  have hdig : r₂.digest = r₁.digest := by
    unfold Resource.digest
    rw [henc]
  have href : r₂.toRef = r₁.toRef := by
    unfold Resource.toRef
    rw [hdig, hname]
  refine ⟨?_, ?_, ?_, ?_⟩
  · rw [commit_fst, commit_fst, href]
  · apply commit_noop_of_present
    rw [hdig]
    exact lookupDigest_commit_isSome s r₁
  · rw [commit_fst]
    exact hex64_length _
  · rw [commit_fst]
    exact hex64_chars _

/-- The example notebook resource `MyResource('hello', 42)`. -/
def myResourceHello42 : Resource :=
  ⟨"__main__.MyResource", [("my_field", .str "hello"), ("my_other_field", .int 42)]⟩

theorem commit_deterministic_idempotent_witness :
    ((Store.commit [] myResourceHello42).2.commit myResourceHello42).1 =
      (Store.commit [] myResourceHello42).1 ∧
    ((Store.commit [] myResourceHello42).2.commit myResourceHello42).2 =
      (Store.commit [] myResourceHello42).2 ∧
    ((Store.commit [] myResourceHello42).1).digest.length = 64 ∧
    ∀ c ∈ ((Store.commit [] myResourceHello42).1).digest.toList,
      c ∈ lowercaseHexDigits :=
  commit_deterministic_idempotent [] myResourceHello42 myResourceHello42 rfl rfl

/-! ## Claim C2: the committed graph is acyclic (linked-list scenario) -/

/-- A linked-list resource node, as in the example notebook: an integer
value and an optional reference to the next node. -/
def llNode (v : Int) (nx : Option Ref) : Resource :=
  ⟨"LinkedList",
    [("value", .int v),
     ("next", match nx with
              | none => .absent
              | some rf => .ref rf.typeName rf.digest)]⟩

/-- Field access on a resource by field name. -/
def fieldOf (r : Resource) (k : String) : Option FieldValue :=
  (r.fields.find? (fun p => p.1 = k)).map (·.2)

/-- Fuel-bounded traversal of a committed linked list, collecting values;
returns `none` when the fuel runs out before reaching the end of the
chain, so a `some` result certifies termination. -/
def traverseLL (s : Store) : Nat → Ref → Option (List FieldValue)
  | 0, _ => none
  | fuel + 1, ref =>
    match s.checkout ref with
    | none => none
    | some r =>
      match fieldOf r "value", fieldOf r "next" with
      | some v, some .absent => some [v]
      | some v, some (.ref t d) => (traverseLL s fuel ⟨t, d⟩).map (v :: ·)
      | _, _ => none

/-- Reference of the first linked-list commit: `L(1, none)`. -/
def llRef1 : Ref := (Store.commit [] (llNode 1 none)).1

/-- Store after the first linked-list commit. -/
def llStore1 : Store := (Store.commit [] (llNode 1 none)).2

/-- Reference of the second commit: `L(2, r1)`. -/
def llRef2 : Ref := (llStore1.commit (llNode 2 (some llRef1))).1

/-- Store after the second commit. -/
def llStore2 : Store := (llStore1.commit (llNode 2 (some llRef1))).2

/-- Reference of the third commit: the in-memory `l1` mutated to point at
`r2`, i.e. `L(1, r2)`. -/
def llRef3 : Ref := (llStore2.commit (llNode 1 (some llRef2))).1

/-- Store after the third commit. -/
def llStore3 : Store := (llStore2.commit (llNode 1 (some llRef2))).2

/-- C2: in the linked-list construction the graph stays acyclic: traversal
from `r3` terminates with the value sequence `[1, 2, 1]` (a chain of
length 3, not a cycle), and `r1 ≠ r3`. -/
theorem linked_list_acyclic :
    traverseLL llStore3 3 llRef3 = some [.int 1, .int 2, .int 1] ∧
    llRef1 ≠ llRef3 := by
  constructor
  · rfl
  · decide

/-! ## Claim C9: `modify` rebinds only the given reference identity -/

/-- C9: `modify` checks out a mutable copy; on error-free exit it
re-commits the mutated copy and rebinds only the given reference identity
to the new digest, while any other reference identity holding the same
prior digest still checks out the original resource; on error the error
propagates (and no commit or rebinding happens). -/
theorem modify_rebinds_only_identity (s : Store) (env : Nat → Ref)
    (rid rid2 : Nat) (f : Resource → Except FieldValue Resource)
    (r r' : Resource)
    (hne : rid2 ≠ rid) (hsame : env rid2 = env rid)
    (hco : s.checkout (env rid) = some r) (hf : f r = .ok r') :
    ∃ s2 env2, modifyRef s env rid f = .ok (s2, env2) ∧
      env2 rid = r'.toRef ∧
      env2 rid2 = env rid2 ∧
      s2.checkout (env2 rid2) = some r ∧
      (∀ g e, g r = Except.error e →
        modifyRef s env rid g = .error (.userErr e)) := by
  refine ⟨(s.commit r').2, fun i => if i = rid then (s.commit r').1 else env i,
    ?_, ?_, ?_, ?_, ?_⟩
  · unfold modifyRef
    rw [hco]
    simp only [hf]
  · simp [commit_fst]
  · simp [hne]
  · simp only [if_neg hne, hsame]
    exact commit_preserves s r' _ _ hco
  · intro g e hg
    unfold modifyRef
    rw [hco]
    simp only [hg]

/-- The mutated notebook resource: `my_other_field` changed to 69. -/
def myResourceHello69 : Resource :=
  ⟨"__main__.MyResource", [("my_field", .str "hello"), ("my_other_field", .int 69)]⟩

/-- Store with `MyResource('hello', 42)` committed. -/
def myStore : Store := (Store.commit [] myResourceHello42).2

/-- Two distinct reference identities that both hold the digest of the
committed `MyResource('hello', 42)`. -/
def myEnv : Nat → Ref := fun _ => (Store.commit [] myResourceHello42).1

theorem modify_rebinds_only_identity_witness :
    ∃ s2 env2,
      modifyRef myStore myEnv 0 (fun _ => .ok myResourceHello69) = .ok (s2, env2) ∧
      env2 0 = myResourceHello69.toRef ∧
      env2 1 = myEnv 1 ∧
      s2.checkout (env2 1) = some myResourceHello42 ∧
      (∀ g e, g myResourceHello42 = Except.error e →
        modifyRef myStore myEnv 0 g = .error (.userErr e)) :=
  modify_rebinds_only_identity myStore myEnv 0 1
    (fun _ => .ok myResourceHello69) myResourceHello42 myResourceHello69
    (by decide) rfl (by rfl) rfl

/-! ## Claim C10: calling a reference equals checking it out -/

/-- C10: calling a reference object directly is equivalent to checking it
out; in particular, for a reference to a freshly committed resource both
return that resource. -/
theorem refCall_eq_checkout (s : Store) (ref : Ref) (r : Resource)
    (hfresh : s.lookupDigest r.digest = none) :
    ref.callRef s = ref.checkoutRef s ∧
    ((s.commit r).1).callRef (s.commit r).2 = some r ∧
    ((s.commit r).1).checkoutRef (s.commit r).2 = some r := by
  refine ⟨rfl, ?_, ?_⟩
  · exact commit_checkout_fresh s r hfresh
  · exact commit_checkout_fresh s r hfresh

theorem refCall_eq_checkout_witness :
    llRef1.callRef [] = llRef1.checkoutRef [] ∧
    ((Store.commit [] myResourceHello42).1).callRef
      (Store.commit [] myResourceHello42).2 = some myResourceHello42 ∧
    ((Store.commit [] myResourceHello42).1).checkoutRef
      (Store.commit [] myResourceHello42).2 = some myResourceHello42 :=
  refCall_eq_checkout [] llRef1 myResourceHello42 rfl

/-! ## Invocation journal

Modelled from the spec: an invocation node holds a request (invokable
reference plus input reference) and an optional response carrying the
output, the raised error, the raised-here flag and the ordered child
invocations (§3).  The model stores the underlying invokable name and
input value in the request and derives the reference digests from them;
an absent response is flattened into `executed = false` with empty
response fields. -/

/-- Modelled from the spec: an error raised inside an invokable body is
either an arbitrary user error captured as a resource value, or the
`InputRequest` cooperative-suspension signal (§4.5). -/
inductive EError : Type where
  | user (v : FieldValue)
  | inputRequest (v : FieldValue)

/-- Whether an error is the `InputRequest` suspension signal. -/
def EError.isInputRequest : EError → Bool
  | .inputRequest _ => true
  | .user _ => false

/-- Request of an invocation: the invokable and its input. -/
structure Req where
  invName : String
  input : FieldValue

/-- Digest of a string (used for invokable references in the model). -/
def digestStr (s : String) : String := digestBytes (encodeStr s)

/-- Digest of a field value (used for input references in the model). -/
def digestFV (v : FieldValue) : String := digestBytes (encodeFV v)

/-- The invokable-reference digest of a request. -/
def Req.invDigest (q : Req) : String := digestStr q.invName

/-- The input-reference digest of a request. -/
def Req.inputDigest (q : Req) : String := digestFV q.input

/-- An invocation journal node: request, executed flag (absence of a
response is `executed = false`), output, raised error, raised-here flag,
and the ordered list of child invocations. -/
inductive Invoc : Type where
  | node (req : Req) (executed : Bool) (output : Option FieldValue)
      (raised : Option EError) (raisedHere : Bool) (children : List Invoc)

/-- Request of a node. -/
def Invoc.req : Invoc → Req
  | .node q _ _ _ _ _ => q

/-- Executed flag of a node. -/
def Invoc.executed : Invoc → Bool
  | .node _ e _ _ _ _ => e

/-- Output of a node. -/
def Invoc.output : Invoc → Option FieldValue
  | .node _ _ o _ _ _ => o

/-- Raised error of a node. -/
def Invoc.raised : Invoc → Option EError
  | .node _ _ _ r _ _ => r

/-- Raised-here flag of a node. -/
def Invoc.raisedHere : Invoc → Bool
  | .node _ _ _ _ h _ => h

/-- Children of a node. -/
def Invoc.children : Invoc → List Invoc
  | .node _ _ _ _ _ cs => cs

@[simp] theorem Invoc.req_node (q e o r h cs) : (Invoc.node q e o r h cs).req = q := rfl

@[simp] theorem Invoc.executed_node (q e o r h cs) :
    (Invoc.node q e o r h cs).executed = e := rfl

@[simp] theorem Invoc.output_node (q e o r h cs) :
    (Invoc.node q e o r h cs).output = o := rfl

@[simp] theorem Invoc.raised_node (q e o r h cs) :
    (Invoc.node q e o r h cs).raised = r := rfl

@[simp] theorem Invoc.raisedHere_node (q e o r h cs) :
    (Invoc.node q e o r h cs).raisedHere = h := rfl

@[simp] theorem Invoc.children_node (q e o r h cs) :
    (Invoc.node q e o r h cs).children = cs := rfl

/-- A node is a completed call when it has a response with an output or a
raised error. -/
def Invoc.isCompleted (c : Invoc) : Bool :=
  c.executed && (c.output.isSome || c.raised.isSome)

/-- The record of a completed call, as it appears in the journal. -/
def Invoc.callRecord (c : Invoc) : Req × Option FieldValue × Option EError :=
  (c.req, c.output, c.raised)

/-- Post-order list of the completed calls of a journal forest: for each
tree, first the completed calls of its children, then the node's own call
when completed. -/
def postCalls : List Invoc → List (Req × Option FieldValue × Option EError)
  | [] => []
  | c :: cs =>
    postCalls c.children ++ (if c.isCompleted then [c.callRecord] else []) ++
      postCalls cs
termination_by cs => sizeOf cs
decreasing_by
  · cases c
    simp [Invoc.children]
    omega
  · simp

/-- Number of completed calls in a journal forest. -/
def countCalls (cs : List Invoc) : Nat := (postCalls cs).length

/-! ## Rewind -/

/-- Clear a node's response fields (output, raised, raised-here flag),
replacing its children. -/
def clearResp : Invoc → List Invoc → Invoc
  | .node q ex _ _ _ _, cs => .node q ex none none false cs

/-- Replace a node's children, keeping everything else. -/
def withChildren : Invoc → List Invoc → Invoc
  | .node q ex o r h _, cs => .node q ex o r h cs

@[simp] theorem clearResp_node (q e o r h cs cs2) :
    clearResp (.node q e o r h cs) cs2 = .node q e none none false cs2 := rfl

@[simp] theorem withChildren_node (q e o r h cs cs2) :
    withChildren (.node q e o r h cs) cs2 = .node q e o r h cs2 := rfl

theorem clearResp_children (c : Invoc) (cs2 : List Invoc) :
    (clearResp c cs2).children = cs2 := by cases c; simp

theorem clearResp_not_completed (c : Invoc) (cs2 : List Invoc) :
    (clearResp c cs2).isCompleted = false := by
  cases c; simp [Invoc.isCompleted]

theorem withChildren_children (c : Invoc) (cs2 : List Invoc) :
    (withChildren c cs2).children = cs2 := by cases c; simp

theorem withChildren_isCompleted (c : Invoc) (cs2 : List Invoc) :
    (withChildren c cs2).isCompleted = c.isCompleted := by
  cases c; simp [Invoc.isCompleted]

mutual

/-- Modelled from the spec: remove the last `n` completed calls of a journal
forest, in post-order across the trees (§4.6).  Trailing subtrees whose
completed calls are wholly consumed are removed; at the boundary subtree
the node's own call — the post-order-last completed call of its subtree —
is cleared and removal continues among its children. -/
def rewindList : List Invoc → Nat → List Invoc
  | [], _ => []
  | cs, 0 => cs
  | c :: rest, n + 1 =>
    if n + 1 ≤ countCalls rest then c :: rewindList rest (n + 1)
    else if countCalls [c] ≤ n + 1 - countCalls rest then []
    else [rewindBoundary c (n + 1 - countCalls rest)]
termination_by cs _ => sizeOf cs
decreasing_by
  all_goals (simp; try omega)

/-- Remove the last `m` completed calls from a single subtree, where `m` is
strictly smaller than the subtree's number of completed calls. -/
def rewindBoundary : Invoc → Nat → Invoc
  | c, m =>
    if c.isCompleted then clearResp c (rewindList c.children (m - 1))
    else withChildren c (rewindList c.children m)
termination_by c _ => sizeOf c
decreasing_by
  all_goals (cases c; simp [Invoc.children]; try omega)

end

/-- Modelled from the spec: `invocation.rewind(n)` returns a new invocation
with the last `n` completed calls (in post-order across the tree) removed
and the current node's own output and raised error cleared (§4.6). -/
def Invoc.rewind : Invoc → Nat → Invoc
  | .node q ex _ _ _ cs, n => .node q ex none none false (rewindList cs n)

/-! ### Post-order structure of rewind -/

theorem postCalls_nil : postCalls [] = [] := by
  rw [postCalls]

theorem postCalls_cons (c : Invoc) (cs : List Invoc) :
    postCalls (c :: cs) =
      postCalls c.children ++ (if c.isCompleted then [c.callRecord] else []) ++
        postCalls cs := by
  rw [postCalls]

theorem postCalls_single (c : Invoc) :
    postCalls [c] =
      postCalls c.children ++ (if c.isCompleted then [c.callRecord] else []) := by
  rw [postCalls_cons, postCalls_nil, List.append_nil]

theorem postCalls_cons_split (c : Invoc) (cs : List Invoc) :
    postCalls (c :: cs) = postCalls [c] ++ postCalls cs := by
  rw [postCalls_cons, postCalls_single]

theorem countCalls_eq_length (cs : List Invoc) :
    countCalls cs = (postCalls cs).length := rfl

theorem countCalls_cons (c : Invoc) (cs : List Invoc) :
    countCalls (c :: cs) = countCalls [c] + countCalls cs := by
  rw [countCalls_eq_length, countCalls_eq_length, countCalls_eq_length,
    postCalls_cons_split, List.length_append]

theorem countCalls_single_completed (c : Invoc) (h : c.isCompleted = true) :
    countCalls [c] = countCalls c.children + 1 := by
  rw [countCalls_eq_length, countCalls_eq_length, postCalls_single, h,
    List.length_append]
  simp

theorem countCalls_single_not_completed (c : Invoc) (h : c.isCompleted = false) :
    countCalls [c] = countCalls c.children := by
  rw [countCalls_eq_length, countCalls_eq_length, postCalls_single, h]
  simp

theorem take_append3 {α : Type} (A E B : List α) (n : Nat) (h : n ≤ B.length) :
    (A ++ (E ++ B)).take (A.length + E.length + B.length - n) =
      A ++ (E ++ B.take (B.length - n)) := by
  rw [List.take_append_eq_append_take,
      List.take_of_length_le
        (show A.length ≤ A.length + E.length + B.length - n by omega),
      List.take_append_eq_append_take,
      List.take_of_length_le
        (show E.length ≤ A.length + E.length + B.length - n - A.length by omega)]
  congr 3
  omega

theorem postCalls_rewindList (cs0 : List Invoc) (n0 : Nat) :
    postCalls (rewindList cs0 n0) =
      (postCalls cs0).take (countCalls cs0 - n0) := by
  suffices H : ∀ (k : Nat) (cs : List Invoc), sizeOf cs ≤ k → ∀ n,
      postCalls (rewindList cs n) = (postCalls cs).take (countCalls cs - n) from
    H (sizeOf cs0) cs0 le_rfl n0
  intro k
  induction k with
  | zero =>
    intro cs hcs n
    exfalso
    cases cs <;> simp at hcs
  | succ k IH =>
    intro cs hcs n
    cases cs with
    | nil =>
      rw [rewindList, postCalls_nil]
      simp
    | cons c rest =>
      cases n with
      | zero =>
        rw [rewindList, Nat.sub_zero, countCalls_eq_length, List.take_length]
        simp
      | succ n =>
        have hszrest : sizeOf rest ≤ k := by
          simp at hcs
          omega
        have hszc : sizeOf c.children ≤ k := by
          cases c
          simp [Invoc.children] at hcs ⊢
          omega
        rw [rewindList]
        by_cases h1 : n + 1 ≤ countCalls rest
        · rw [if_pos h1, postCalls_cons, postCalls_cons, countCalls_cons,
              IH rest hszrest (n + 1)]
          rw [List.append_assoc, List.append_assoc]
          have hcnt : countCalls [c] + countCalls rest - (n + 1) =
              (postCalls c.children).length +
                (if c.isCompleted then [c.callRecord] else []).length +
                (postCalls rest).length - (n + 1) := by
            rw [countCalls_eq_length, countCalls_eq_length, postCalls_single,
              List.length_append]
          rw [hcnt, take_append3 _ _ _ (n + 1)
            (by rw [← countCalls_eq_length]; exact h1)]
          rw [countCalls_eq_length]
        · by_cases h2 : countCalls [c] ≤ n + 1 - countCalls rest
          · rw [if_neg h1, if_pos h2, postCalls_nil]
            have h0 : countCalls (c :: rest) - (n + 1) = 0 := by
              rw [countCalls_cons]
              omega
            rw [h0, List.take_zero]
          · rw [if_neg h1, if_neg h2, rewindBoundary]
            by_cases hcomp : c.isCompleted
            · rw [if_pos hcomp, postCalls_single, clearResp_children,
                clearResp_not_completed]
              simp only [Bool.false_eq_true, if_false, List.append_nil]
              rw [IH c.children hszc (n + 1 - countCalls rest - 1)]
              have hc1 := countCalls_single_completed c hcomp
              conv_rhs => rw [postCalls_cons_split]
              have hidx : countCalls (c :: rest) - (n + 1) =
                  countCalls [c] - (n + 1 - countCalls rest) := by
                rw [countCalls_cons]
                omega
              rw [hidx, List.take_append_of_le_length
                (by rw [countCalls_eq_length]; omega)]
              conv_rhs => rw [postCalls_single, if_pos hcomp]
              rw [List.take_append_of_le_length
                (by rw [← countCalls_eq_length]; omega)]
              congr 1
              omega
            · have hcompf : c.isCompleted = false := by
                simpa using hcomp
              rw [if_neg hcomp, postCalls_single, withChildren_children,
                withChildren_isCompleted, hcompf]
              simp only [Bool.false_eq_true, if_false, List.append_nil]
              rw [IH c.children hszc (n + 1 - countCalls rest)]
              have hc1 := countCalls_single_not_completed c hcompf
              conv_rhs => rw [postCalls_cons_split]
              have hidx : countCalls (c :: rest) - (n + 1) =
                  countCalls [c] - (n + 1 - countCalls rest) := by
                rw [countCalls_cons]
                omega
              rw [hidx, List.take_append_of_le_length
                (by rw [countCalls_eq_length]; omega)]
              conv_rhs => rw [postCalls_single, hcompf]
              simp only [Bool.false_eq_true, if_false, List.append_nil]
              congr 1
              omega

/-- C3: rewind returns a new invocation in which the last `n` completed
calls, taken in post-order across the tree, are removed and the current
node's own output and raised error are cleared; the request is unchanged
and the original journal value is untouched (rewind is a pure function
over the journal). -/
theorem rewind_removes_last_completed_calls (inv : Invoc) (n : Nat) :
    (inv.rewind n).output = none ∧ (inv.rewind n).raised = none ∧
    (inv.rewind n).req = inv.req ∧
    postCalls (inv.rewind n).children =
      (postCalls inv.children).take (countCalls inv.children - n) := by
  cases inv
  simp [Invoc.rewind, postCalls_rewindList]

/-! ## The sequential invocation engine

Modelled from the spec: an invokable body is a deterministic script which
either returns an output, raises an error, or calls a sub-invokable and
continues with the sub-invocation's output (§4.4, §4.5).  An environment
assigns a body script to every invokable name and input. -/

/-- The body of an invokable, as a deterministic script. -/
inductive Script : Type where
  | ret (v : FieldValue)
  | raiseE (e : EError)
  | callI (nm : String) (input : FieldValue) (k : FieldValue → Script)

/-- An environment of invokable bodies. -/
def InvEnv : Type := String → FieldValue → Script

/-- The outcome of running a body: a value, or an error together with the
flag saying whether the error originated in this body (`true`) or
propagated from a child sub-invocation (`false`). -/
inductive Outcome : Type where
  | ok (v : FieldValue)
  | err (e : EError) (here : Bool)

/-- Build a journal node for an executed call from its request data,
recorded children and outcome. -/
def mkNode (nm : String) (x : FieldValue) (cs : List Invoc) (o : Outcome) :
    Invoc :=
  match o with
  | .ok v => .node ⟨nm, x⟩ true (some v) none false cs
  | .err e here => .node ⟨nm, x⟩ true none (some e) here cs

/-- Modelled from the spec: run a body script under the engine (§4.5).
Each nested invokable call is intercepted: the engine runs the child's
body, records a child node, and hands the child's output to the
continuation; a child error is recorded and propagates with
`raised_here = false` at the parent.  Fuel bounds the recursion depth, so
`none` means the fuel ran out only. -/
def runScript (env : InvEnv) : Nat → Script → Option (List Invoc × Outcome)
  | _, .ret v => some ([], .ok v)
  | _, .raiseE e => some ([], .err e true)
  | 0, .callI _ _ _ => none
  | fuel + 1, .callI nm x k =>
    match runScript env fuel (env nm x) with
    | none => none
    | some (ccs, co) =>
      let child := mkNode nm x ccs co
      match co with
      | .ok v =>
        match runScript env fuel (k v) with
        | none => none
        | some (cs, o) => some (child :: cs, o)
      | .err e _ => some ([child], .err e false)

/-- Run one invocation of an invokable on an input: the journal node plus
the outcome handed to the caller. -/
def runInvoke (env : InvEnv) (fuel : Nat) (nm : String) (x : FieldValue) :
    Option (Invoc × Outcome) :=
  match runScript env fuel (env nm x) with
  | none => none
  | some (cs, o) => some (mkNode nm x cs o, o)

/-- Modelled from the spec: top-level `invoke` journals the execution and
returns the invocation; a raised `InputRequest` is not propagated — the
partial invocation is returned instead — while any other raised error is
journaled and then handed back to the caller for re-raising (§4.5).  The
second component is the propagated error, `none` when nothing
propagates. -/
def invoke (env : InvEnv) (fuel : Nat) (nm : String) (x : FieldValue) :
    Option (Invoc × Option EError) :=
  match runInvoke env fuel nm x with
  | none => none
  | some (node, .ok _) => some (node, none)
  | some (node, .err e _) =>
    some (node, if e.isInputRequest then none else some e)

/-- C6: whenever an `InputRequest` is raised inside an invokable's own
body, the engine records it as that node's raised error with
`raised_here = true`, and at the top level `invoke` returns the partial
invocation rather than propagating the request. -/
theorem inputRequest_suspends (env : InvEnv) (fuel : Nat) (nm : String)
    (x : FieldValue) (node : Invoc) (e : EError)
    (hrun : runInvoke env fuel nm x = some (node, .err e true))
    (hreq : e.isInputRequest = true) :
    node.raised = some e ∧ node.raisedHere = true ∧
    invoke env fuel nm x = some (node, none) := by
  refine ⟨?_, ?_, ?_⟩
  · unfold runInvoke at hrun
    cases hsc : runScript env fuel (env nm x) with
    | none => rw [hsc] at hrun; exact absurd hrun (by simp)
    | some p =>
      rw [hsc] at hrun
      simp at hrun
      obtain ⟨h1, h2⟩ := hrun
      rw [← h1, h2]
      simp [mkNode]
  · unfold runInvoke at hrun
    cases hsc : runScript env fuel (env nm x) with
    | none => rw [hsc] at hrun; exact absurd hrun (by simp)
    | some p =>
      rw [hsc] at hrun
      simp at hrun
      obtain ⟨h1, h2⟩ := hrun
      rw [← h1, h2]
      simp [mkNode]
  · unfold invoke
    rw [hrun]
    simp [hreq]

/-- An environment whose single invokable immediately requests input. -/
def askEnv : InvEnv := fun _ _ => .raiseE (.inputRequest (.str "question"))

theorem inputRequest_suspends_witness :
    (Invoc.node ⟨"ask", .absent⟩ true none
        (some (.inputRequest (.str "question"))) true []).raised =
      some (.inputRequest (.str "question")) ∧
    (Invoc.node ⟨"ask", .absent⟩ true none
        (some (.inputRequest (.str "question"))) true []).raisedHere = true ∧
    invoke askEnv 1 "ask" .absent =
      some (Invoc.node ⟨"ask", .absent⟩ true none
        (some (.inputRequest (.str "question"))) true [], none) :=
  inputRequest_suspends askEnv 1 "ask" .absent _ _ rfl rfl

/-! ## Replay

Modelled from the spec: replay re-enters execution with a replay-aware
builder holding a cursor over the recorded children of the current node
(§4.7).  A nested call matching the next recorded child (equal invokable
reference and input reference) consumes it and returns its recorded
output, or re-raises its recorded error unless the exception override
supplies a substitute output; a mismatch fails with a replay error naming
the expected and observed digests; when no recorded child remains, a
fresh sub-invocation is run and appended.  Nodes without a recorded
output are re-executed against their recorded children; an error raised
in a re-executed body is replaced by the override's value when one is
supplied. -/

/-- A replay divergence error: the expected (recorded) and observed
invokable and input digests, and the rendered message naming them. -/
structure ReplayErr : Type where
  expectedInv : String
  expectedInput : String
  gotInv : String
  gotInput : String
  msg : String

/-- Build the replay error for a mismatch between the next recorded child
`rc` and an observed call of `nm` on `x`. -/
def mkReplayErr (rc : Invoc) (nm : String) (x : FieldValue) : ReplayErr :=
  ⟨rc.req.invDigest, rc.req.inputDigest, digestStr nm, digestFV x,
    "Expected invocation " ++ rc.req.invDigest ++ "(" ++ rc.req.inputDigest ++
      ") but got " ++ digestStr nm ++ "(" ++ digestFV x ++ ")"⟩

/-- Modelled from the spec: a recorded child matches a new call when its
request's invokable reference and input reference both equal those of the
new call (§4.7). -/
def matchesRec (rc : Invoc) (nm : String) (x : FieldValue) : Bool :=
  rc.req.invDigest == digestStr nm && rc.req.inputDigest == digestFV x

/-- Substitute an override value as a recorded child's output. -/
def setOutput (rc : Invoc) (v : FieldValue) : Invoc :=
  match rc with
  | .node q e _ _ _ cs => .node q e (some v) none false cs

/-- Prepend a replayed child node to the result of the rest of a body. -/
def replayCont (nd : Invoc) :
    Option (Except ReplayErr (List Invoc × Outcome)) →
      Option (Except ReplayErr (List Invoc × Outcome))
  | none => none
  | some (.error re) => some (.error re)
  | some (.ok (cs, o)) => some (.ok (nd :: cs, o))

/-- Turn the finished body run of one replayed invocation into its journal
node and outcome: an error raised in the body itself (`here = true`) is
replaced by the override's value when one is supplied. -/
def finishChild (ov : EError → Option FieldValue) (nm : String)
    (x : FieldValue) :
    Option (Except ReplayErr (List Invoc × Outcome)) →
      Option (Except ReplayErr (Invoc × Outcome))
  | none => none
  | some (.error re) => some (.error re)
  | some (.ok (cs, .ok v)) => some (.ok (mkNode nm x cs (.ok v), .ok v))
  | some (.ok (cs, .err e here)) =>
    if here then
      match ov e with
      | some v => some (.ok (mkNode nm x cs (.ok v), .ok v))
      | none => some (.ok (mkNode nm x cs (.err e true), .err e true))
    else some (.ok (mkNode nm x cs (.err e false), .err e false))

/-- Replay-aware run of a body script against the remaining recorded
children of the current node.  A nested call matching the next recorded
child consumes it: a recorded output is returned without running the
child's body; a recorded error is re-raised unless the override supplies
a substitute output; a recorded child without output or error is
re-executed against its own recorded children.  A mismatch fails with a
replay error; past the last recorded child, fresh sub-invocations are run
and appended. -/
def replayBody (env : InvEnv) (ov : EError → Option FieldValue) :
    Nat → Script → List Invoc →
      Option (Except ReplayErr (List Invoc × Outcome))
  | _, .ret v, _ => some (.ok ([], .ok v))
  | _, .raiseE e, _ => some (.ok ([], .err e true))
  | 0, .callI _ _ _, _ => none
  | fuel + 1, .callI nm x k, rc :: rest =>
    if matchesRec rc nm x then
      match rc.output with
      | some v => replayCont rc (replayBody env ov fuel (k v) rest)
      | none =>
        match rc.raised with
        | some e =>
          match ov e with
          | some v =>
            replayCont (setOutput rc v) (replayBody env ov fuel (k v) rest)
          | none => some (.ok ([rc], .err e false))
        | none =>
          match finishChild ov nm x
              (replayBody env ov fuel (env nm x) rc.children) with
          | none => none
          | some (.error re) => some (.error re)
          | some (.ok (nd, .ok v)) =>
            replayCont nd (replayBody env ov fuel (k v) rest)
          | some (.ok (nd, .err e _)) => some (.ok ([nd], .err e false))
    else some (.error (mkReplayErr rc nm x))
  | fuel + 1, .callI nm x k, [] =>
    match finishChild ov nm x (replayBody env ov fuel (env nm x) []) with
    | none => none
    | some (.error re) => some (.error re)
    | some (.ok (nd, .ok v)) => replayCont nd (replayBody env ov fuel (k v) [])
    | some (.ok (nd, .err e _)) => some (.ok ([nd], .err e false))

/-- Modelled from the spec: top-level replay re-executes the invocation
against its journal; a node with a recorded output is replayed without
running its body (§4.7). -/
def Invoc.replay (env : InvEnv) (ov : EError → Option FieldValue)
    (fuel : Nat) (inv : Invoc) : Option (Except ReplayErr Invoc) :=
  match inv.output with
  | some _ => some (.ok inv)
  | none =>
    match finishChild ov inv.req.invName inv.req.input
        (replayBody env ov fuel (env inv.req.invName inv.req.input)
          inv.children) with
    | none => none
    | some (.error re) => some (.error re)
    | some (.ok (nd, _)) => some (.ok nd)

/-! ## Claim C4: replay matching and the dice scenario -/

/-- Integer view of a field value (0 for non-integers). -/
def asInt : FieldValue → Int
  | .int i => i
  | _ => 0

/-- The dice environment of the example notebook: `die` returns the fixed
value `d` (the pseudo-random generator under one seed), and `dice` rolls
the die three times and returns the sum. -/
def diceEnv (d : Int) : InvEnv := fun nm _ =>
  if nm = "die" then .ret (.int d)
  else if nm = "dice" then
    .callI "die" .absent fun a =>
      .callI "die" .absent fun b =>
        .callI "die" .absent fun c =>
          .ret (.int (asInt a + asInt b + asInt c))
  else .ret .absent

/-- The empty exception override. -/
def ovNone : EError → Option FieldValue := fun _ => none

/-- Journal node of one die roll with output `v`. -/
def dieNode (v : Int) : Invoc :=
  .node ⟨"die", .absent⟩ true (some (.int v)) none false []

/-- Journal of the original three-roll invocation under seed value 3. -/
def diceOrig : Invoc :=
  .node ⟨"dice", .int 3⟩ true (some (.int 9)) none false
    [dieNode 3, dieNode 3, dieNode 3]

/-- The journal after `rewind 2`: last two rolls removed, root cleared. -/
def diceRewound : Invoc :=
  .node ⟨"dice", .int 3⟩ true none none false [dieNode 3]

/-- The journal after replaying the rewound invocation under seed value 5:
the first roll is preserved, the re-executed rolls yield 5. -/
def diceReplayed : Invoc :=
  .node ⟨"dice", .int 3⟩ true (some (.int 13)) none false
    [dieNode 3, dieNode 5, dieNode 5]

/-- C4: during replay, a nested call whose invokable reference and input
reference both equal those of the next recorded child is matched: its
recorded output is returned without re-executing its body (the child's
environment entry is never consulted), and the recorded node is kept.
Hence for the three-roll dice invocation, `rewind 2` followed by `replay`
under a new seed keeps the first child's output, re-executes the last two
children, and returns the sum of the re-executed outputs plus the
preserved first output. -/
theorem replay_match_returns_recorded (env : InvEnv)
    (ov : EError → Option FieldValue) (fuel : Nat) (nm : String)
    (x : FieldValue) (k : FieldValue → Script) (rc : Invoc)
    (rest : List Invoc) (v : FieldValue)
    (hm : matchesRec rc nm x = true) (ho : rc.output = some v) :
    replayBody env ov (fuel + 1) (.callI nm x k) (rc :: rest) =
      replayCont rc (replayBody env ov fuel (k v) rest) ∧
    invoke (diceEnv 3) 10 "dice" (.int 3) = some (diceOrig, none) ∧
    diceOrig.rewind 2 = diceRewound ∧
    Invoc.replay (diceEnv 5) ovNone 10 diceRewound = some (.ok diceReplayed) ∧
    diceReplayed.children.map Invoc.output =
      [some (.int 3), some (.int 5), some (.int 5)] ∧
    diceReplayed.output = some (.int (3 + 5 + 5)) := by
  refine ⟨?_, ?_, ?_, ?_, rfl, rfl⟩
  · rw [replayBody]
    simp [hm, ho]
  · rfl
  · simp [diceOrig, diceRewound, Invoc.rewind, rewindList, rewindBoundary,
      countCalls, postCalls, dieNode, Invoc.isCompleted, Invoc.children]
  · rfl

theorem replay_match_returns_recorded_witness :
    replayBody (diceEnv 3) ovNone (0 + 1)
        (.callI "die" .absent fun _ => .ret .absent) [dieNode 3] =
      replayCont (dieNode 3)
        (replayBody (diceEnv 3) ovNone 0 (.ret .absent) []) ∧
    invoke (diceEnv 3) 10 "dice" (.int 3) = some (diceOrig, none) ∧
    diceOrig.rewind 2 = diceRewound ∧
    Invoc.replay (diceEnv 5) ovNone 10 diceRewound = some (.ok diceReplayed) ∧
    diceReplayed.children.map Invoc.output =
      [some (.int 3), some (.int 5), some (.int 5)] ∧
    diceReplayed.output = some (.int (3 + 5 + 5)) :=
  replay_match_returns_recorded (diceEnv 3) ovNone 0 "die" .absent
    (fun _ => .ret .absent) (dieNode 3) [] (.int 3) rfl rfl

/-! ## Claim C5: replay divergence raises a replay error -/

/-- The timestamp-formatting environment of the example notebook: `fct`
reads the current time `t` (baked into the environment, so a replay under
a later time uses a different argument) and passes it to the
sub-invokable `fmt`. -/
def fmtEnv (t : Int) : InvEnv := fun nm _ =>
  if nm = "fct" then .callI "fmt" (.int t) fun s => .ret s
  else if nm = "fmt" then .ret (.str "formatted")
  else .ret .absent

/-- The recorded `fmt` child for timestamp `t`. -/
def fmtChild (t : Int) : Invoc :=
  .node ⟨"fmt", .int t⟩ true (some (.str "formatted")) none false []

/-- The original `fct` invocation journal for timestamp `t`. -/
def fmtOrig (t : Int) : Invoc :=
  .node ⟨"fct", .absent⟩ true (some (.str "formatted")) none false
    [fmtChild t]

/-- The `fct` journal after `rewind 0`: only the root response cleared. -/
def fmtRewound (t : Int) : Invoc :=
  .node ⟨"fct", .absent⟩ true none none false [fmtChild t]

/-- C5: if during replay a nested call's invokable or input reference
differs from the next recorded child, replay fails with a replay error
whose fields and message name both the expected and the observed digests;
in particular, for an invokable passing a fresh timestamp to a
sub-invokable, replay after `rewind 0` raises the replay error naming the
recorded and the observed input digest. -/
theorem replay_mismatch_raises (env : InvEnv)
    (ov : EError → Option FieldValue) (fuel : Nat) (nm : String)
    (x : FieldValue) (k : FieldValue → Script) (rc : Invoc)
    (rest : List Invoc)
    (hm : matchesRec rc nm x = false) :
    replayBody env ov (fuel + 1) (.callI nm x k) (rc :: rest) =
      some (.error (mkReplayErr rc nm x)) ∧
    (mkReplayErr rc nm x).msg =
      "Expected invocation " ++ rc.req.invDigest ++ "(" ++
        rc.req.inputDigest ++ ") but got " ++ digestStr nm ++ "(" ++
        digestFV x ++ ")" ∧
    (mkReplayErr rc nm x).expectedInput = rc.req.inputDigest ∧
    (mkReplayErr rc nm x).gotInput = digestFV x ∧
    invoke (fmtEnv 1001) 10 "fct" .absent = some (fmtOrig 1001, none) ∧
    (fmtOrig 1001).rewind 0 = fmtRewound 1001 ∧
    Invoc.replay (fmtEnv 1002) ovNone 10 (fmtRewound 1001) =
      some (.error (mkReplayErr (fmtChild 1001) "fmt" (.int 1002))) ∧
    (mkReplayErr (fmtChild 1001) "fmt" (.int 1002)).expectedInput =
      digestFV (.int 1001) ∧
    (mkReplayErr (fmtChild 1001) "fmt" (.int 1002)).gotInput =
      digestFV (.int 1002) ∧
    (mkReplayErr (fmtChild 1001) "fmt" (.int 1002)).msg =
      "Expected invocation " ++ digestStr "fmt" ++ "(" ++
        digestFV (.int 1001) ++ ") but got " ++ digestStr "fmt" ++ "(" ++
        digestFV (.int 1002) ++ ")" := by
  refine ⟨?_, rfl, rfl, rfl, rfl, ?_, rfl, rfl, rfl, rfl⟩
  · rw [replayBody]
    simp [hm]
  · simp [fmtOrig, fmtRewound, Invoc.rewind, rewindList]

theorem replay_mismatch_raises_witness :
    replayBody (fmtEnv 1002) ovNone (0 + 1)
        (.callI "fmt" (.int 1002) fun s => .ret s) [fmtChild 1001] =
      some (.error (mkReplayErr (fmtChild 1001) "fmt" (.int 1002))) ∧
    (mkReplayErr (fmtChild 1001) "fmt" (.int 1002)).msg =
      "Expected invocation " ++ (fmtChild 1001).req.invDigest ++ "(" ++
        (fmtChild 1001).req.inputDigest ++ ") but got " ++ digestStr "fmt" ++
        "(" ++ digestFV (.int 1002) ++ ")" ∧
    (mkReplayErr (fmtChild 1001) "fmt" (.int 1002)).expectedInput =
      (fmtChild 1001).req.inputDigest ∧
    (mkReplayErr (fmtChild 1001) "fmt" (.int 1002)).gotInput =
      digestFV (.int 1002) ∧
    invoke (fmtEnv 1001) 10 "fct" .absent = some (fmtOrig 1001, none) ∧
    (fmtOrig 1001).rewind 0 = fmtRewound 1001 ∧
    Invoc.replay (fmtEnv 1002) ovNone 10 (fmtRewound 1001) =
      some (.error (mkReplayErr (fmtChild 1001) "fmt" (.int 1002))) ∧
    (mkReplayErr (fmtChild 1001) "fmt" (.int 1002)).expectedInput =
      digestFV (.int 1001) ∧
    (mkReplayErr (fmtChild 1001) "fmt" (.int 1002)).gotInput =
      digestFV (.int 1002) ∧
    (mkReplayErr (fmtChild 1001) "fmt" (.int 1002)).msg =
      "Expected invocation " ++ digestStr "fmt" ++ "(" ++
        digestFV (.int 1001) ++ ") but got " ++ digestStr "fmt" ++ "(" ++
        digestFV (.int 1002) ++ ")" :=
  replay_mismatch_raises (fmtEnv 1002) ovNone 0 "fmt" (.int 1002)
    (fun s => .ret s) (fmtChild 1001) [] (by decide)

/-! ## Claim C7: exception override substitutes recorded errors -/

/-- The `Halt` error of the example notebook. -/
def haltE : EError := .user (.str "Halt")

/-- Environment whose `rh` invokable raises `Halt`. -/
def raiseHaltEnv : InvEnv := fun nm _ =>
  if nm = "rh" then .raiseE haltE else .ret .absent

/-- Exception override mapping `Halt` to the injected string value. -/
def haltOv : EError → Option FieldValue := fun e =>
  match e with
  | .user (.str s) => if s = "Halt" then some (.str "Injected value") else none
  | _ => none

/-- Journal of the recorded `rh` invocation: raised `Halt`, no output. -/
def haltNode : Invoc := .node ⟨"rh", .absent⟩ true none (some haltE) true []

/-- C7: when replay reaches a recorded raised error for which the supplied
exception override returns a value, that value is substituted as the
sub-invocation's output instead of re-raising; for an invokable whose
recorded invocation raised `Halt`, replaying with the override completes
with the override's value as the output. -/
theorem replay_override_substitutes (env : InvEnv)
    (ov : EError → Option FieldValue) (fuel : Nat) (nm : String)
    (x : FieldValue) (k : FieldValue → Script) (rc : Invoc)
    (rest : List Invoc) (e : EError) (v : FieldValue)
    (hm : matchesRec rc nm x = true) (ho : rc.output = none)
    (hr : rc.raised = some e) (hov : ov e = some v) :
    replayBody env ov (fuel + 1) (.callI nm x k) (rc :: rest) =
      replayCont (setOutput rc v) (replayBody env ov fuel (k v) rest) ∧
    (setOutput rc v).output = some v ∧
    runInvoke raiseHaltEnv 10 "rh" .absent = some (haltNode, .err haltE true) ∧
    haltNode.raised = some haltE ∧
    Invoc.replay raiseHaltEnv haltOv 10 haltNode =
      some (.ok (.node ⟨"rh", .absent⟩ true (some (.str "Injected value"))
        none false [])) := by
  refine ⟨?_, ?_, rfl, rfl, rfl⟩
  · rw [replayBody]
    simp [hm, ho, hr, hov]
  · cases rc
    rfl

theorem replay_override_substitutes_witness :
    replayBody raiseHaltEnv haltOv (0 + 1)
        (.callI "rh" .absent fun _ => .ret .absent) [haltNode] =
      replayCont (setOutput haltNode (.str "Injected value"))
        (replayBody raiseHaltEnv haltOv 0 (.ret .absent) []) ∧
    (setOutput haltNode (.str "Injected value")).output =
      some (.str "Injected value") ∧
    runInvoke raiseHaltEnv 10 "rh" .absent = some (haltNode, .err haltE true) ∧
    haltNode.raised = some haltE ∧
    Invoc.replay raiseHaltEnv haltOv 10 haltNode =
      some (.ok (.node ⟨"rh", .absent⟩ true (some (.str "Injected value"))
        none false [])) :=
  replay_override_substitutes raiseHaltEnv haltOv 0 "rh" .absent
    (fun _ => .ret .absent) haltNode [] haltE (.str "Injected value")
    rfl rfl rfl rfl

/-! ## Claim C8: the async engine and incomplete sub-invocations

Modelled from the spec: the cooperative-async engine shares the sequential
contract with two extra rules: all child sub-invocations must complete
before their parent's call coroutine completes, and if a child coroutine
is left pending on parent return the engine fails with an
incomplete-subinvocation error, which is always re-raised to the caller
(§4.5, §7).  A body is a cooperative script that can spawn background
sub-invocation tasks and await them; suspension is only at these explicit
points, so execution is deterministic. -/

/-- A spawned sub-invocation task: pending while `result` is `none`. -/
structure ATask : Type where
  nm : String
  input : FieldValue
  result : Option FieldValue

/-- The incomplete-subinvocation error: which child task was still pending
at parent return. -/
structure IncompleteErr : Type where
  taskIdx : Nat
  nm : String
  input : FieldValue

/-- A cooperative-async invokable body. -/
inductive AScript : Type where
  | ret (v : FieldValue)
  | raiseE (e : EError)
  | spawn (nm : String) (input : FieldValue) (k : Nat → AScript)
  | awaitT (tid : Nat) (k : FieldValue → AScript)

/-- An environment of async invokable bodies. -/
def AsyncEnv : Type := String → FieldValue → AScript

/-- Turn a finished async body run into its journal node and outcome. -/
def finishAsync (nm : String) (x : FieldValue) :
    Option (Except IncompleteErr (List Invoc × List ATask × Outcome)) →
      Option (Except IncompleteErr (Invoc × Outcome))
  | none => none
  | some (.error err) => some (.error err)
  | some (.ok (cs, _, o)) => some (.ok (mkNode nm x cs o, o))

/-- Modelled from the spec: run an async body.  `spawn` registers a pending
child task; `awaitT` runs a pending task to completion (cooperative
scheduling), records its journal node in completion order, and resumes
with its output; on `ret`, any still-pending child task fails the
invocation with the incomplete-subinvocation error, which propagates
through every enclosing level. -/
def runAsync (env : AsyncEnv) :
    Nat → AScript → List ATask → List Invoc →
      Option (Except IncompleteErr (List Invoc × List ATask × Outcome))
  | _, .ret v, tasks, acc =>
    match tasks.findIdx? (fun t => t.result.isNone) with
    | some i =>
      match tasks[i]? with
      | some t => some (.error ⟨i, t.nm, t.input⟩)
      | none => some (.error ⟨i, "", .absent⟩)
    | none => some (.ok (acc, tasks, .ok v))
  | _, .raiseE e, tasks, acc => some (.ok (acc, tasks, .err e true))
  | 0, .spawn _ _ _, _, _ => none
  | 0, .awaitT _ _, _, _ => none
  | fuel + 1, .spawn nm x k, tasks, acc =>
    runAsync env fuel (k tasks.length) (tasks ++ [⟨nm, x, none⟩]) acc
  | fuel + 1, .awaitT tid k, tasks, acc =>
    match tasks[tid]? with
    | none => some (.ok (acc, tasks, .err (.user (.str "invalid task")) true))
    | some t =>
      match t.result with
      | some v => runAsync env fuel (k v) tasks acc
      | none =>
        match finishAsync t.nm t.input
            (runAsync env fuel (env t.nm t.input) [] []) with
        | none => none
        | some (.error err) => some (.error err)
        | some (.ok (child, .ok v)) =>
          runAsync env fuel (k v) (tasks.set tid ⟨t.nm, t.input, some v⟩)
            (acc ++ [child])
        | some (.ok (child, .err e _)) =>
          some (.ok (acc ++ [child], tasks, .err e false))

/-- Modelled from the spec: top-level async invoke; the
incomplete-subinvocation error is always re-raised to the caller rather
than absorbed into the journal, while other errors are journaled as in
the sequential engine (§7). -/
def invokeAsync (env : AsyncEnv) (fuel : Nat) (nm : String)
    (x : FieldValue) : Option (Except IncompleteErr (Invoc × Option EError)) :=
  match finishAsync nm x (runAsync env fuel (env nm x) [] []) with
  | none => none
  | some (.error err) => some (.error err)
  | some (.ok (nd, .ok _)) => some (.ok (nd, none))
  | some (.ok (nd, .err e _)) =>
    some (.ok (nd, if e.isInputRequest then none else some e))

/-- The notebook scenario: `waitFirst` spawns two die rolls, awaits only
the first, and returns its value, leaving the second task pending. -/
def asyncEnvW : AsyncEnv := fun nm _ =>
  if nm = "waitFirst" then
    .spawn "dieA" .absent fun t0 =>
      .spawn "dieA" .absent fun _ =>
        .awaitT t0 fun v => .ret v
  else .ret (.int 4)

/-- C8: in the async engine, if any child sub-invocation task is still
pending when its parent's call returns, the invocation fails with the
incomplete-subinvocation error naming the pending child, and this error
is always re-raised to the caller rather than absorbed into the journal;
the wait-for-first-result scenario fails accordingly. -/
theorem async_pending_child_fails (env : AsyncEnv) (fuel : Nat)
    (v : FieldValue) (tasks : List ATask) (acc : List Invoc) (i : Nat)
    (t : ATask)
    (hp : tasks.findIdx? (fun u => u.result.isNone) = some i)
    (ht : tasks[i]? = some t) :
    runAsync env fuel (.ret v) tasks acc = some (.error ⟨i, t.nm, t.input⟩) ∧
    (∀ (env2 : AsyncEnv) (fuel2 : Nat) (nm : String) (x : FieldValue)
        (err : IncompleteErr),
      runAsync env2 fuel2 (env2 nm x) [] [] = some (.error err) →
      invokeAsync env2 fuel2 nm x = some (.error err)) ∧
    invokeAsync asyncEnvW 10 "waitFirst" .absent =
      some (.error ⟨1, "dieA", .absent⟩) := by
  refine ⟨?_, ?_, rfl⟩
  · cases fuel <;> (rw [runAsync, hp]; simp [ht])
  · intro env2 fuel2 nm x err h
    unfold invokeAsync
    rw [h]
    simp [finishAsync]

theorem async_pending_child_fails_witness :
    runAsync asyncEnvW 3 (.ret (.int 4))
        [⟨"dieA", .absent, some (.int 4)⟩, ⟨"dieA", .absent, none⟩]
        [mkNode "dieA" .absent [] (.ok (.int 4))] =
      some (.error ⟨1, "dieA", .absent⟩) ∧
    (∀ (env2 : AsyncEnv) (fuel2 : Nat) (nm : String) (x : FieldValue)
        (err : IncompleteErr),
      runAsync env2 fuel2 (env2 nm x) [] [] = some (.error err) →
      invokeAsync env2 fuel2 nm x = some (.error err)) ∧
    invokeAsync asyncEnvW 10 "waitFirst" .absent =
      some (.error ⟨1, "dieA", .absent⟩) :=
  async_pending_child_fails asyncEnvW 3 (.int 4)
    [⟨"dieA", .absent, some (.int 4)⟩, ⟨"dieA", .absent, none⟩]
    [mkNode "dieA" .absent [] (.ok (.int 4))] 1 ⟨"dieA", .absent, none⟩
    rfl rfl
